import Mathlib

/-!
Verification of the media-processing pipeline of `src/main.py`
(fb-vid-to-txt).  The Python functions are shallowly embedded as pure
Lean functions.  Filesystem state is an explicit record of the two
directories the pipeline mutates (`to_transcribe`, here `incoming`, and
`done_vids`, here `done`); the external collaborators (ffmpeg, the
Whisper transcription call, the GPT chat call, yt-dlp, and the OS
move/remove calls) are modelled by an oracle record describing the
observable outcome of one invocation of each.
-/

namespace FbVidToTxt

/-- ASCII lower-casing of one character: the fragment of Python's
`str.lower` that matters for extension matching. -/
def lowerChar (c : Char) : Char :=
  if 'A' ≤ c ∧ c ≤ 'Z' then Char.ofNat (c.toNat + 32) else c

/-- Lower-case every character of a name, as `filename.lower()` does. -/
def lowerName (s : String) : String := ⟨s.data.map lowerChar⟩

/-- Python's `str.endswith` for a single candidate ending. -/
def strEndsWith (s ending : String) : Bool := ending.data.isSuffixOf s.data

/-- The video test on line 166 of `main.py`:
`filename.lower().endswith(('.mp4', '.webm', '.mpeg'))`. -/
def isVideoFile (filename : String) : Bool :=
  strEndsWith (lowerName filename) ".mp4" ||
  strEndsWith (lowerName filename) ".webm" ||
  strEndsWith (lowerName filename) ".mpeg"

/-- Root part of Python's `os.path.splitext`: the name up to its last
dot, where the dots of the maximal leading run never start an
extension (so `.bashrc` has no extension). -/
def splitextRoot (s : String) : String :=
  let cs := s.data
  let lead := (cs.takeWhile (fun c => c == '.')).length
  let dotIdxs := (List.range cs.length).filter
    (fun i => decide (lead ≤ i) && (cs.getD i ' ' == '.'))
  match dotIdxs.getLast? with
  | some i => ⟨cs.take i⟩
  | none => s

/-- Characters deleted by the regex on line 55 of `main.py`. -/
def pyIllegal (c : Char) : Bool :=
  ['\\', '/', '*', '?', ':', '"', '<', '>', '|', '(', ')'].contains c

/-- Unicode NFKD decomposition restricted to the characters this
development evaluates on: ASCII characters are NFKD-invariant and the
precomposed letter é (U+00E9) decomposes into e (U+0065) followed by
the combining acute accent (U+0301); every other character is left
alone. -/
def nfkdChar (c : Char) : List Char :=
  if c == Char.ofNat 0xE9 then [Char.ofNat 0x65, Char.ofNat 0x301] else [c]

/-- `sanitize_filename` from `main.py`: drop the problem characters,
replace spaces with underscores, NFKD-normalize and keep only the ASCII
code points (`encode('ASCII', 'ignore')`). -/
def sanitize_filename (filename : String) : String :=
  let s1 := filename.data.filter (fun c => ! pyIllegal c)
  let s2 := s1.map (fun c => if c == ' ' then '_' else c)
  let s3 := ((s2.map nfkdChar).flatten).filter (fun c => decide (c.toNat < 128))
  ⟨s3⟩

/-- The two directories the pipeline mutates.  `incoming` is the
`to_transcribe` directory, each file carried with its byte size (the
size is what `extract_audio`'s emptiness check reads); `done` is the
`done_vids` directory. -/
structure FSState where
  incoming : List (String × Nat)
  done : List String
deriving DecidableEq

/-- `os.path.exists` inside the `to_transcribe` directory. -/
def existsIncoming (st : FSState) (f : String) : Bool :=
  st.incoming.any (fun p => p.1 == f)

/-- `os.path.getsize` inside the `to_transcribe` directory. -/
def getSize (st : FSState) (f : String) : Option Nat :=
  (st.incoming.find? (fun p => p.1 == f)).map Prod.snd

/-- `os.remove` inside the `to_transcribe` directory. -/
def removeIncoming (st : FSState) (f : String) : FSState :=
  { st with incoming := st.incoming.filter (fun p => p.1 != f) }

/-- Observable behaviour of one `ffmpeg ... .run(...)` invocation:
whether it wrote an output file (and of what size), and whether the
invocation raised.  A raising invocation may still have written a
partial output file first. -/
structure FfmpegOutcome where
  produced : Option Nat
  raised : Bool
deriving DecidableEq

/-- Outcomes of the external calls made while processing one file, plus
whether the two cleanup OS calls succeed.  `transcribeResult = none`
and a `true` in `raised`/`moveOk`/`removeOk` positions model the
corresponding call raising an exception. -/
structure Oracles where
  ffmpeg : FfmpegOutcome
  transcribeResult : Option String
  analyzeResult : Option String
  analyzeErr : String
  moveOk : Bool
  removeOk : Bool
deriving DecidableEq

/-- `extract_audio` from `main.py`: remove a pre-existing output file,
run ffmpeg, then validate that the output exists and is non-empty.
Returns whether an exception escaped, together with the resulting
filesystem state; note that neither validation failure removes the
file ffmpeg wrote. -/
def extract_audio (ff : FfmpegOutcome) (outputFile : String) (st : FSState) :
    Bool × FSState :=
  let st1 := removeIncoming st outputFile
  let st2 := match ff.produced with
    | some sz => { st1 with incoming := (outputFile, sz) :: st1.incoming }
    | none => st1
  if ff.raised then (true, st2)
  else if ! existsIncoming st2 outputFile then (true, st2)
  else if getSize st2 outputFile == some 0 then (true, st2)
  else (false, st2)

/-- `get_gpt4o_response` from `main.py`: on an API exception the
function catches it and returns an error string instead of raising. -/
def get_gpt4o_response (o : Oracles) (_userInput : String) : String :=
  match o.analyzeResult with
  | some r => r
  | none => "Error: Could not get response from AI. Details: " ++ o.analyzeErr

/-- The combined artifact text composed on lines 199-202 of `main.py`. -/
def final_text_content (transcriptionText analyzedTextAi : String) : String :=
  "--- Original Transcription ---\n" ++ transcriptionText ++
  "\n\n--- AI Analysis & Translation (Hebrew) ---\n" ++ analyzedTextAi

/-- The cleanup `try` block of `process_single_file`: move the original
into `done_vids`, then delete the extracted temporary audio file if one
is present.  An exception at either step is caught and only logged, and
an exception during the move skips the delete. -/
def cleanupFiles (o : Oracles) (filename audioFilePath : String) (st : FSState) :
    FSState :=
  if o.moveOk then
    let st1 : FSState :=
      { incoming := (removeIncoming st filename).incoming, done := filename :: st.done }
    if (audioFilePath != filename) && existsIncoming st1 audioFilePath then
      if o.removeOk then removeIncoming st1 audioFilePath else st1
    else st1
  else st

/-- The stages of `process_single_file` after a successful (or skipped)
extraction: transcribe, analyze, compose the artifact, clean up.  A
transcription exception yields `(None, None)` with no state change. -/
def afterExtract (o : Oracles) (filename audioFilePath : String) (st : FSState) :
    Option (String × String) × FSState :=
  match o.transcribeResult with
  | none => (none, st)
  | some transcriptionText =>
    let analyzedTextAi := get_gpt4o_response o transcriptionText
    let content := final_text_content transcriptionText analyzedTextAi
    let txtFilename := splitextRoot filename ++ ".txt"
    (some (txtFilename, content), cleanupFiles o filename audioFilePath st)

/-- `process_single_file` from `main.py`: locate the file, extract audio
when the name classifies as video, then transcribe/analyze/compose and
clean up.  The first component is Python's `(txt_filename,
final_text_content)` return value, with `none` standing for the
`(None, None)` failure returns. -/
def process_single_file (o : Oracles) (filename : String) (st : FSState) :
    Option (String × String) × FSState :=
  if ! existsIncoming st filename then (none, st)
  else if isVideoFile filename then
    let outputAudioFile := splitextRoot filename ++ ".mp3"
    let res := extract_audio o.ffmpeg outputAudioFile st
    if res.1 then (none, res.2)
    else afterExtract o filename outputAudioFile res.2
  else afterExtract o filename filename st

/-- Aggregate of one press of the start button: the
`st.session_state.processed_files` mapping, the two counters, the list
of files handed to `process_single_file` in order, and the final
filesystem state. -/
structure BatchResult where
  processedFiles : List (String × String)
  successfulFiles : Nat
  failedFiles : Nat
  trace : List String
  finalState : FSState
deriving DecidableEq

/-- The per-file loop of `run_app`: each selected file is processed
once; a truthy `(txt_filename, content)` pair is recorded in the
mapping and counted successful, anything else counted failed. -/
def runFiles (O : String → Oracles) : List String → FSState → BatchResult
  | [], st => ⟨[], 0, 0, [], st⟩
  | f :: rest, st =>
    let pr := process_single_file (O f) f st
    let r := runFiles O rest pr.2
    match pr.1 with
    | some (t, c) =>
      if (t != "") && (c != "") then
        ⟨(t, c) :: r.processedFiles, r.successfulFiles + 1, r.failedFiles,
          f :: r.trace, r.finalState⟩
      else
        ⟨r.processedFiles, r.successfulFiles, r.failedFiles + 1, f :: r.trace,
          r.finalState⟩
    | none =>
      ⟨r.processedFiles, r.successfulFiles, r.failedFiles + 1, f :: r.trace,
        r.finalState⟩

/-- Candidate-list construction of `run_app` (lines 268-278): the
downloaded file, if the download returned one, followed by every
directory entry not already selected. -/
def buildCandidates (downloadedFile : Option String) (filesInDir : List String) :
    List String :=
  let selected := match downloadedFile with
    | some f => [f]
    | none => []
  selected ++ filesInDir.filter (fun f => ! selected.contains f)

/-- The closing banner of a run: the three-way classification, or the
please-upload warning when there was nothing to process. -/
inductive BatchOutcome where
  | allSucceeded
  | allFailed
  | mixed
  | noFiles
deriving DecidableEq

/-- The button-press branch of `run_app`: fetch result (`none` when the
download failed, in which case nothing is appended), candidate list from
the directory listing, sequential processing, and the banner chosen from
the counters. -/
def run_app_outcome (O : String → Oracles) (downloadedFile : Option String)
    (st : FSState) : BatchOutcome × BatchResult :=
  let filesInDir := st.incoming.map Prod.fst
  let selectedFiles := buildCandidates downloadedFile filesInDir
  if selectedFiles.isEmpty then (BatchOutcome.noFiles, ⟨[], 0, 0, [], st⟩)
  else
    let r := runFiles O selectedFiles st
    if r.failedFiles == 0 then (BatchOutcome.allSucceeded, r)
    else if r.successfulFiles == 0 then (BatchOutcome.allFailed, r)
    else (BatchOutcome.mixed, r)

/-- An all-good oracle: extraction writes a non-empty file without
raising, both API calls answer, both cleanup calls succeed. -/
def goodO : Oracles :=
  { ffmpeg := { produced := some 1, raised := false }
    transcribeResult := some "T"
    analyzeResult := some "A"
    analyzeErr := ""
    moveOk := true
    removeOk := true }

section StateLemmas

/-- Removing a name makes it absent. -/
lemma anyName_filter_self (l : List (String × Nat)) (f : String) :
    (l.filter (fun p => p.1 != f)).any (fun p => p.1 == f) = false := by
  rw [List.any_eq_false]
  intro p hp
  rcases List.mem_filter.mp hp with ⟨-, hne⟩
  simpa [bne] using hne

/-- Removing one name leaves the presence of any other name alone. -/
lemma anyName_filter_ne (l : List (String × Nat)) (f g : String) (h : f ≠ g) :
    (l.filter (fun p => p.1 != g)).any (fun p => p.1 == f) =
      l.any (fun p => p.1 == f) := by
  induction l with
  | nil => rfl
  | cons p rest ih =>
    by_cases hp : p.1 = g
    · have h1 : (p.1 != g) = false := by simp [bne, hp]
      have h2 : (p.1 == f) = false := by
        simp only [beq_eq_false_iff_ne, ne_eq, hp]
        exact fun he => h he.symm
      simp [List.filter_cons, List.any_cons, h1, h2, ih]
    · have h1 : (p.1 != g) = true := by simp [bne, hp]
      simp [List.filter_cons, List.any_cons, h1, ih]

lemma existsIncoming_removeIncoming_self (st : FSState) (f : String) :
    existsIncoming (removeIncoming st f) f = false :=
  anyName_filter_self st.incoming f

lemma existsIncoming_removeIncoming_ne (st : FSState) (f g : String) (h : f ≠ g) :
    existsIncoming (removeIncoming st g) f = existsIncoming st f :=
  anyName_filter_ne st.incoming f g h

lemma existsIncoming_cons (l : List (String × Nat)) (d : List String)
    (q : String × Nat) (f : String) :
    existsIncoming ⟨q :: l, d⟩ f = ((q.1 == f) || existsIncoming ⟨l, d⟩ f) :=
  List.any_cons

lemma removeIncoming_done (st : FSState) (f : String) :
    (removeIncoming st f).done = st.done := rfl

/-- A name is present iff it is in the directory listing. -/
lemma existsIncoming_true_iff (st : FSState) (f : String) :
    existsIncoming st f = true ↔ f ∈ st.incoming.map Prod.fst := by
  constructor
  · intro h
    obtain ⟨p, hp, hbeq⟩ := List.any_eq_true.mp h
    exact List.mem_map.mpr ⟨p, hp, beq_iff_eq.mp hbeq⟩
  · intro h
    obtain ⟨p, hp, hfst⟩ := List.mem_map.mp h
    exact List.any_eq_true.mpr ⟨p, hp, by simp [hfst]⟩

/-- `lowerName` acts on the character data by mapping `lowerChar`. -/
lemma lowerName_data (s : String) : (lowerName s).data = s.data.map lowerChar := rfl

/-- A string ending in `e` has `e`'s last character as its own. -/
lemma strEndsWith_getLast? (s e : String) (h : strEndsWith s e = true)
    (hne : e.data ≠ []) : s.data.getLast? = e.data.getLast? := by
  obtain ⟨t, ht⟩ := List.isSuffixOf_iff_suffix.mp h
  rw [← ht, List.getLast?_append_of_ne_nil _ hne]

/-- A name that classifies as video is never equal to the sibling
`.mp3` name derived from it: their last characters differ. -/
lemma video_ne_mp3 (f : String) (h : isVideoFile f = true) :
    f ≠ splitextRoot f ++ ".mp3" := by
  intro heq
  have hd : f.data = (splitextRoot f).data ++ ['.', 'm', 'p', '3'] := by
    conv_lhs => rw [heq]
    rw [String.data_append]
  have hlast : (lowerName f).data.getLast? = some '3' := by
    rw [lowerName_data, hd, List.map_append,
      List.getLast?_append_of_ne_nil _ (by decide)]
    rfl
  have hdisj : (strEndsWith (lowerName f) ".mp4" = true ∨
      strEndsWith (lowerName f) ".webm" = true) ∨
      strEndsWith (lowerName f) ".mpeg" = true := by
    simpa [isVideoFile] using h
  rcases hdisj with (h4 | h5) | h6
  · have := strEndsWith_getLast? _ _ h4 (by decide)
    rw [hlast] at this
    simp at this
  · have := strEndsWith_getLast? _ _ h5 (by decide)
    rw [hlast] at this
    simp at this
  · have := strEndsWith_getLast? _ _ h6 (by decide)
    rw [hlast] at this
    simp at this

/-- A string with non-empty right part is non-empty under the Boolean
truthiness test of the batch loop. -/
lemma append_bne_empty (a b : String) (hb : b.data ≠ []) :
    ((a ++ b) != "") = true := by
  rw [bne_iff_ne]
  intro hc
  have hdata : a.data ++ b.data = [] := by
    have h0 := congrArg String.data hc
    rwa [String.data_append] at h0
  exact hb (List.append_eq_nil.mp hdata).2

/-- A string with non-empty left part is non-empty under the Boolean
truthiness test of the batch loop. -/
lemma append_bne_empty_left (a b : String) (ha : a.data ≠ []) :
    ((a ++ b) != "") = true := by
  rw [bne_iff_ne]
  intro hc
  have hdata : a.data ++ b.data = [] := by
    have h0 := congrArg String.data hc
    rwa [String.data_append] at h0
  exact ha (List.append_eq_nil.mp hdata).1

/-- The artifact text is non-empty under the truthiness test. -/
lemma final_text_content_bne_empty (t a : String) :
    (final_text_content t a != "") = true := by
  unfold final_text_content
  apply append_bne_empty_left
  rw [String.data_append]
  intro hc
  exact absurd (List.append_eq_nil.mp hc).2 (by decide)

end StateLemmas

section ScenarioLemmas

/-- `extract_audio` when the tool raised without writing any file. -/
lemma extract_audio_raised_none (ff : FfmpegOutcome) (out : String) (st : FSState)
    (hr : ff.raised = true) (hp : ff.produced = none) :
    extract_audio ff out st = (true, removeIncoming st out) := by
  simp [extract_audio, hr, hp]

/-- `extract_audio` when the tool wrote a (possibly partial) file and
then raised: the exception escapes and the file stays. -/
lemma extract_audio_raised_some (ff : FfmpegOutcome) (out : String) (st : FSState)
    (sz : Nat) (hr : ff.raised = true) (hp : ff.produced = some sz) :
    extract_audio ff out st =
      (true, ⟨(out, sz) :: (removeIncoming st out).incoming, st.done⟩) := by
  simp [extract_audio, hr, hp, removeIncoming]

/-- `extract_audio` when the tool reported success but wrote nothing:
the existence check fails. -/
lemma extract_audio_no_output (ff : FfmpegOutcome) (out : String) (st : FSState)
    (hr : ff.raised = false) (hp : ff.produced = none) :
    extract_audio ff out st = (true, removeIncoming st out) := by
  simp [extract_audio, hr, hp, existsIncoming_removeIncoming_self]

/-- `extract_audio` when the tool wrote an empty file: the emptiness
check raises and the empty file stays. -/
lemma extract_audio_empty_output (ff : FfmpegOutcome) (out : String) (st : FSState)
    (hr : ff.raised = false) (hp : ff.produced = some 0) :
    extract_audio ff out st =
      (true, ⟨(out, 0) :: (removeIncoming st out).incoming, st.done⟩) := by
  simp [extract_audio, hr, hp, removeIncoming, existsIncoming_cons, getSize,
    List.find?_cons]

/-- `extract_audio` on a successful extraction of a non-empty file. -/
lemma extract_audio_success (ff : FfmpegOutcome) (out : String) (st : FSState)
    (n : Nat) (hr : ff.raised = false) (hp : ff.produced = some (n + 1)) :
    extract_audio ff out st =
      (false, ⟨(out, n + 1) :: (removeIncoming st out).incoming, st.done⟩) := by
  simp [extract_audio, hr, hp, removeIncoming, existsIncoming_cons, getSize,
    List.find?_cons]

/-- An extraction that did not raise wrote a non-empty output file. -/
lemma extract_audio_false_inv (ff : FfmpegOutcome) (out : String) (st : FSState)
    (h : (extract_audio ff out st).1 = false) :
    ff.raised = false ∧ ∃ n, ff.produced = some (n + 1) ∧
      extract_audio ff out st =
        (false, ⟨(out, n + 1) :: (removeIncoming st out).incoming, st.done⟩) := by
  cases hr : ff.raised with
  | true =>
    cases hp : ff.produced with
    | none => rw [extract_audio_raised_none ff out st hr hp] at h; simp at h
    | some sz => rw [extract_audio_raised_some ff out st sz hr hp] at h; simp at h
  | false =>
    cases hp : ff.produced with
    | none => rw [extract_audio_no_output ff out st hr hp] at h; simp at h
    | some sz =>
      cases sz with
      | zero => rw [extract_audio_empty_output ff out st hr hp] at h; simp at h
      | succ n =>
        exact ⟨rfl, n, rfl, extract_audio_success ff out st n hr hp⟩

/-- The done directory after a successful move: the original is on it. -/
lemma cleanupFiles_done (o : Oracles) (fn ap : String) (st : FSState)
    (hm : o.moveOk = true) :
    (cleanupFiles o fn ap st).done = fn :: st.done := by
  simp only [cleanupFiles, hm, if_true]
  split
  · split <;> rfl
  · rfl

/-- With no download, the candidate list is the directory listing. -/
lemma buildCandidates_none (dir : List String) : buildCandidates none dir = dir := by
  simp [buildCandidates]

/-- The batch loop hands every selected file to the stage pipeline, in
order. -/
lemma runFiles_trace (O : String → Oracles) (files : List String) (st : FSState) :
    (runFiles O files st).trace = files := by
  induction files generalizing st with
  | nil => rfl
  | cons f rest ih =>
    simp only [runFiles]
    rcases h : (process_single_file (O f) f st).1 with _ | ⟨t, c⟩
    · simp [h, ih]
    · simp only [h]
      split <;> simp [ih]

/-- Shape of `process_single_file` on a missing file. -/
lemma process_notfound (o : Oracles) (f : String) (st : FSState)
    (he : existsIncoming st f = false) :
    process_single_file o f st = (none, st) := by
  simp [process_single_file, he]

/-- Shape of `process_single_file` on an audio-classified file. -/
lemma process_audio (o : Oracles) (f : String) (st : FSState)
    (he : existsIncoming st f = true) (hv : isVideoFile f = false) :
    process_single_file o f st = afterExtract o f f st := by
  simp [process_single_file, he, hv]

/-- Shape of `process_single_file` on a video file whose extraction
raised. -/
lemma process_video_extract_failed (o : Oracles) (f : String) (st : FSState)
    (he : existsIncoming st f = true) (hv : isVideoFile f = true)
    (hres : (extract_audio o.ffmpeg (splitextRoot f ++ ".mp3") st).1 = true) :
    process_single_file o f st =
      (none, (extract_audio o.ffmpeg (splitextRoot f ++ ".mp3") st).2) := by
  simp [process_single_file, he, hv, hres]

/-- Shape of `process_single_file` on a video file whose extraction
succeeded. -/
lemma process_video_extract_ok (o : Oracles) (f : String) (st : FSState)
    (he : existsIncoming st f = true) (hv : isVideoFile f = true)
    (hres : (extract_audio o.ffmpeg (splitextRoot f ++ ".mp3") st).1 = false) :
    process_single_file o f st =
      afterExtract o f (splitextRoot f ++ ".mp3")
        (extract_audio o.ffmpeg (splitextRoot f ++ ".mp3") st).2 := by
  simp [process_single_file, he, hv, hres]

end ScenarioLemmas

/-- Any successful return of `afterExtract` carries the transcript and
the composed artifact for it. -/
lemma afterExtract_fst_eq_some (o : Oracles) (fn ap : String) (st : FSState)
    (p : String × String) (h : (afterExtract o fn ap st).1 = some p) :
    ∃ t, o.transcribeResult = some t ∧
      p = (splitextRoot fn ++ ".txt", final_text_content t (get_gpt4o_response o t)) := by
  cases ht : o.transcribeResult with
  | none => simp [afterExtract, ht] at h
  | some t =>
    refine ⟨t, rfl, ?_⟩
    simp only [afterExtract, ht] at h
    exact (Option.some_inj.mp h).symm

/-- Any successful return of `process_single_file` went through
`afterExtract`, so it carries the transcript and its artifact. -/
lemma process_fst_eq_some (o : Oracles) (f : String) (st : FSState)
    (p : String × String) (h : (process_single_file o f st).1 = some p) :
    ∃ t, o.transcribeResult = some t ∧
      p = (splitextRoot f ++ ".txt", final_text_content t (get_gpt4o_response o t)) := by
  cases he : existsIncoming st f with
  | false => simp [process_single_file, he] at h
  | true =>
    cases hv : isVideoFile f with
    | false =>
      simp only [process_single_file, he, hv, Bool.not_true, Bool.false_eq_true,
        if_false, if_true] at h
      exact afterExtract_fst_eq_some o f f st p h
    | true =>
      rcases hres : extract_audio o.ffmpeg (splitextRoot f ++ ".mp3") st with ⟨raised, st2⟩
      cases raised with
      | true => simp [process_single_file, he, hv, hres] at h
      | false =>
        simp only [process_single_file, he, hv, hres, Bool.not_true,
          Bool.false_eq_true, if_false, if_true] at h
        exact afterExtract_fst_eq_some o f _ st2 p h

/-- Oracle for a run in which ffmpeg reports success but writes an
empty output file. -/
def emptyExtractO : Oracles :=
  { goodO with ffmpeg := { produced := some 0, raised := false } }

/-- Oracle for a run in which extraction succeeds but the transcription
call raises. -/
def transcribeFailO : Oracles :=
  { goodO with
    ffmpeg := { produced := some 2, raised := false }
    transcribeResult := none }

/-- Oracle for a run in which the analysis API call raises (and is
caught inside `get_gpt4o_response`). -/
def analysisFailO : Oracles :=
  { goodO with
    analyzeResult := none
    analyzeErr := "boom" }

/-- A successful `process_single_file` found its file. -/
lemma process_fst_some_exists (o : Oracles) (f : String) (st : FSState)
    (p : String × String) (hp : (process_single_file o f st).1 = some p) :
    existsIncoming st f = true := by
  cases he : existsIncoming st f with
  | true => rfl
  | false => rw [process_notfound o f st he] at hp; simp at hp

/-- The cleanup flags do not change what `afterExtract` returns. -/
lemma afterExtract_fst_flags (o : Oracles) (b₁ b₂ : Bool) (fn ap : String)
    (st : FSState) :
    (afterExtract { o with moveOk := b₁, removeOk := b₂ } fn ap st).1 =
      (afterExtract o fn ap st).1 := by
  cases ht : o.transcribeResult <;>
    simp [afterExtract, get_gpt4o_response, ht]

/-- The cleanup flags do not change what `process_single_file` returns. -/
lemma process_fst_flags (o : Oracles) (b₁ b₂ : Bool) (f : String) (st : FSState) :
    (process_single_file { o with moveOk := b₁, removeOk := b₂ } f st).1 =
      (process_single_file o f st).1 := by
  cases he : existsIncoming st f with
  | false =>
    rw [process_notfound o f st he,
      process_notfound { o with moveOk := b₁, removeOk := b₂ } f st he]
  | true =>
    cases hv : isVideoFile f with
    | false =>
      rw [process_audio o f st he hv,
        process_audio { o with moveOk := b₁, removeOk := b₂ } f st he hv]
      exact afterExtract_fst_flags o b₁ b₂ f f st
    | true =>
      cases hres : (extract_audio o.ffmpeg (splitextRoot f ++ ".mp3") st).1 with
      | true =>
        rw [process_video_extract_failed o f st he hv hres,
          process_video_extract_failed { o with moveOk := b₁, removeOk := b₂ }
            f st he hv hres]
      | false =>
        rw [process_video_extract_ok o f st he hv hres,
          process_video_extract_ok { o with moveOk := b₁, removeOk := b₂ }
            f st he hv hres]
        exact afterExtract_fst_flags o b₁ b₂ f (splitextRoot f ++ ".mp3") _

/-- Successful cleanup of an audio item: the original is moved to done
and is gone from incoming. -/
lemma cleanup_after_success_audio (o : Oracles) (f : String) (st : FSState)
    (hm : o.moveOk = true) :
    (cleanupFiles o f f st).done = f :: st.done ∧
    existsIncoming (cleanupFiles o f f st) f = false := by
  have hc : cleanupFiles o f f st = ⟨(removeIncoming st f).incoming, f :: st.done⟩ := by
    simp [cleanupFiles, hm]
  rw [hc]
  exact ⟨rfl, anyName_filter_self st.incoming f⟩

/-- Successful cleanup of a video item: the original is moved to done
and both it and the extracted audio file are gone from incoming. -/
lemma cleanup_after_success_video (o : Oracles) (f out : String) (st2 : FSState)
    (hm : o.moveOk = true) (hrm : o.removeOk = true) (hfo : f ≠ out)
    (hex : existsIncoming ⟨(removeIncoming st2 f).incoming, f :: st2.done⟩ out = true) :
    (cleanupFiles o f out st2).done = f :: st2.done ∧
    existsIncoming (cleanupFiles o f out st2) f = false ∧
    existsIncoming (cleanupFiles o f out st2) out = false := by
  have hbne : (out != f) = true := bne_iff_ne.mpr (Ne.symm hfo)
  have hclean : cleanupFiles o f out st2 =
      removeIncoming ⟨(removeIncoming st2 f).incoming, f :: st2.done⟩ out := by
    simp [cleanupFiles, hm, hrm, hbne, hex]
  rw [hclean]
  refine ⟨rfl, ?_, existsIncoming_removeIncoming_self _ out⟩
  rw [existsIncoming_removeIncoming_ne _ f out hfo]
  exact anyName_filter_self st2.incoming f

/-- An all-good collaborator for one file: the transcription and the
cleanup calls succeed, and ffmpeg writes a non-empty file without
raising. -/
def GoodOracle (o : Oracles) : Prop :=
  (∃ t, o.transcribeResult = some t) ∧ o.moveOk = true ∧ o.removeOk = true ∧
  o.ffmpeg.raised = false ∧ ∃ n, o.ffmpeg.produced = some (n + 1)

/-- The state after a successful cleanup of an audio item. -/
lemma cleanupFiles_audio_state (o : Oracles) (f : String) (st : FSState)
    (hm : o.moveOk = true) :
    cleanupFiles o f f st = ⟨(removeIncoming st f).incoming, f :: st.done⟩ := by
  simp [cleanupFiles, hm]

/-- The state after a successful cleanup of a video item. -/
lemma cleanupFiles_video_state (o : Oracles) (f out : String) (st2 : FSState)
    (hm : o.moveOk = true) (hrm : o.removeOk = true) (hfo : f ≠ out)
    (hex : existsIncoming ⟨(removeIncoming st2 f).incoming, f :: st2.done⟩ out = true) :
    cleanupFiles o f out st2 =
      removeIncoming ⟨(removeIncoming st2 f).incoming, f :: st2.done⟩ out := by
  have hbne : (out != f) = true := bne_iff_ne.mpr (Ne.symm hfo)
  simp [cleanupFiles, hm, hrm, hbne, hex]

/-- Filtering a name out of the directory commutes with taking the
listing. -/
lemma map_fst_filter_ne (l : List (String × Nat)) (g : String) :
    (l.filter (fun p => p.1 != g)).map Prod.fst =
      (l.map Prod.fst).filter (fun m => m != g) := by
  induction l with
  | nil => rfl
  | cons p rest ih =>
    cases h : (p.1 != g) with
    | true => simp [List.filter_cons, h, ih]
    | false => simp [List.filter_cons, h, ih]

/-- Filtering a name that is not in the list is a no-op. -/
lemma filter_ne_of_not_mem (l : List String) (g : String) (h : g ∉ l) :
    l.filter (fun m => m != g) = l := by
  apply List.filter_eq_self.mpr
  intro a ha
  exact bne_iff_ne.mpr (fun he => h (he ▸ ha))

/-- Directory listing after processing the head video item of a run:
the pushed `.mp3` and the moved original both disappear again, leaving
exactly the remaining candidates. -/
lemma names_after_video (st : FSState) (f out : String) (rest : List String) (n : Nat)
    (hnames : st.incoming.map Prod.fst = f :: rest)
    (hfo : f ≠ out) (hout : out ∉ f :: rest) (hfrest : f ∉ rest) :
    ((((⟨(out, n + 1) :: (removeIncoming st out).incoming, st.done⟩ : FSState).incoming.filter
        (fun p => p.1 != f)).filter (fun p => p.1 != out)).map Prod.fst) = rest := by
  rw [map_fst_filter_ne, map_fst_filter_ne]
  have hE : ((out, n + 1) :: (removeIncoming st out).incoming).map Prod.fst =
      out :: f :: rest := by
    show out :: ((st.incoming.filter (fun p => p.1 != out)).map Prod.fst) =
      out :: f :: rest
    rw [map_fst_filter_ne, hnames, filter_ne_of_not_mem _ _ hout]
  have hof : (out != f) = true := bne_iff_ne.mpr (Ne.symm hfo)
  have hrf : rest.filter (fun m => m != f) = rest := filter_ne_of_not_mem rest f hfrest
  have hro : rest.filter (fun m => m != out) = rest :=
    filter_ne_of_not_mem rest out (fun hm => hout (List.mem_cons_of_mem _ hm))
  show ((((out, n + 1) :: (removeIncoming st out).incoming).map Prod.fst).filter
      (fun m => m != f)).filter (fun m => m != out) = rest
  rw [hE]
  simp [List.filter_cons, hof, hrf, hro]

/-- A run over candidates that exactly list a directory of all-good
items succeeds on every item and drains the incoming directory. -/
lemma runFiles_success_empties (O : String → Oracles) :
    ∀ (files : List String) (st : FSState),
      st.incoming.map Prod.fst = files → files.Nodup →
      (∀ f ∈ files, GoodOracle (O f)) →
      (∀ f ∈ files, isVideoFile f = true → (splitextRoot f ++ ".mp3") ∉ files) →
      (runFiles O files st).finalState.incoming = [] ∧
      (runFiles O files st).failedFiles = 0 ∧
      (runFiles O files st).successfulFiles = files.length := by
  intro files
  induction files with
  | nil =>
    intro st hnames _ _ _
    exact ⟨List.map_eq_nil_iff.mp hnames, rfl, rfl⟩
  | cons f rest ih =>
    intro st hnames hnd hgood hnocol
    obtain ⟨⟨t, ht⟩, hm, hrm, hr, n, hp⟩ := hgood f (List.mem_cons_self _ _)
    have he : existsIncoming st f = true :=
      (existsIncoming_true_iff st f).mpr (by rw [hnames]; exact List.mem_cons_self _ _)
    have hfnotrest : f ∉ rest := (List.nodup_cons.mp hnd).1
    have hndrest : rest.Nodup := (List.nodup_cons.mp hnd).2
    have hgood' : ∀ g ∈ rest, GoodOracle (O g) :=
      fun g hg => hgood g (List.mem_cons_of_mem _ hg)
    have hnocol' : ∀ g ∈ rest, isVideoFile g = true →
        (splitextRoot g ++ ".mp3") ∉ rest :=
      fun g hg hvg hmem =>
        hnocol g (List.mem_cons_of_mem _ hg) hvg (List.mem_cons_of_mem _ hmem)
    have hne_txt : ((splitextRoot f ++ ".txt") != "") = true :=
      append_bne_empty _ _ (by decide)
    have hne_content := final_text_content_bne_empty t (get_gpt4o_response (O f) t)
    cases hv : isVideoFile f with
    | false =>
      have hstep : process_single_file (O f) f st =
          (some (splitextRoot f ++ ".txt",
            final_text_content t (get_gpt4o_response (O f) t)),
            ⟨st.incoming.filter (fun p => p.1 != f), f :: st.done⟩) := by
        rw [process_audio (O f) f st he hv]
        simp only [afterExtract, ht]
        rw [cleanupFiles_audio_state (O f) f st hm]
        rfl
      have hnames' : (⟨st.incoming.filter (fun p => p.1 != f), f :: st.done⟩ :
          FSState).incoming.map Prod.fst = rest := by
        show (st.incoming.filter (fun p => p.1 != f)).map Prod.fst = rest
        rw [map_fst_filter_ne, hnames]
        simp [List.filter_cons, filter_ne_of_not_mem rest f hfnotrest]
      obtain ⟨hinc, hfail, hsucc⟩ :=
        ih ⟨st.incoming.filter (fun p => p.1 != f), f :: st.done⟩
          hnames' hndrest hgood' hnocol'
      simp only [runFiles, hstep, hne_txt, hne_content, Bool.and_self, if_true]
      exact ⟨hinc, hfail, by rw [hsucc, List.length_cons]⟩
    | true =>
      have hfo : f ≠ splitextRoot f ++ ".mp3" := video_ne_mp3 f hv
      have hout : (splitextRoot f ++ ".mp3") ∉ f :: rest :=
        hnocol f (List.mem_cons_self _ _) hv
      have hea := extract_audio_success (O f).ffmpeg (splitextRoot f ++ ".mp3") st n hr hp
      have hbne : ((splitextRoot f ++ ".mp3") != f) = true :=
        bne_iff_ne.mpr (Ne.symm hfo)
      have hstep : process_single_file (O f) f st =
          (some (splitextRoot f ++ ".txt",
            final_text_content t (get_gpt4o_response (O f) t)),
            removeIncoming
              ⟨(removeIncoming
                  ⟨(splitextRoot f ++ ".mp3", n + 1) ::
                    (removeIncoming st (splitextRoot f ++ ".mp3")).incoming, st.done⟩
                  f).incoming,
                f :: (⟨(splitextRoot f ++ ".mp3", n + 1) ::
                  (removeIncoming st (splitextRoot f ++ ".mp3")).incoming,
                  st.done⟩ : FSState).done⟩
              (splitextRoot f ++ ".mp3")) := by
        rw [process_video_extract_ok (O f) f st he hv (by rw [hea]), hea]
        simp only [afterExtract, ht]
        try dsimp only
        rw [cleanupFiles_video_state (O f) f (splitextRoot f ++ ".mp3")
          ⟨(splitextRoot f ++ ".mp3", n + 1) ::
            (removeIncoming st (splitextRoot f ++ ".mp3")).incoming, st.done⟩
          hm hrm hfo
          (by simp [existsIncoming, removeIncoming, List.filter_cons, hbne,
            List.any_cons])]
      have hnames' : (removeIncoming
          ⟨(removeIncoming
              ⟨(splitextRoot f ++ ".mp3", n + 1) ::
                (removeIncoming st (splitextRoot f ++ ".mp3")).incoming, st.done⟩
              f).incoming,
            f :: (⟨(splitextRoot f ++ ".mp3", n + 1) ::
              (removeIncoming st (splitextRoot f ++ ".mp3")).incoming,
              st.done⟩ : FSState).done⟩
          (splitextRoot f ++ ".mp3")).incoming.map Prod.fst = rest := by
        exact names_after_video st f (splitextRoot f ++ ".mp3") rest n hnames hfo
          hout hfnotrest
      obtain ⟨hinc, hfail, hsucc⟩ :=
        ih _ hnames' hndrest hgood' hnocol'
      simp only [runFiles, hstep, hne_txt, hne_content, Bool.and_self, if_true]
      exact ⟨hinc, hfail, by rw [hsucc, List.length_cons]⟩

example : isVideoFile "A.MP4" = true := by decide
example : isVideoFile "song.mp3" = false := by decide
example : splitextRoot "foo.mp4" = "foo" := by decide
example : sanitize_filename "Café Résumé (1).mp4" = "Cafe_Resume_1.mp4" := by decide
example :
    process_single_file goodO "a.mp3" ⟨[("a.mp3", 5)], []⟩ =
      (some ("a.txt", final_text_content "T" "A"), ⟨[], ["a.mp3"]⟩) := by decide

/-- C6: for every succeeded item, the combined artifact content equals
exactly the fixed template
`"--- Original Transcription ---\n" + transcript
 + "\n\n--- AI Analysis & Translation (Hebrew) ---\n" + analysis`,
byte for byte, for all transcript and analysis strings: the template
function is that concatenation, and every successful
`process_single_file` return carries the template applied to the
transcript it obtained and the analysis text it derived from it. -/
theorem artifact_template :
    (∀ t a, final_text_content t a =
      "--- Original Transcription ---\n" ++ t ++
        "\n\n--- AI Analysis & Translation (Hebrew) ---\n" ++ a) ∧
    (∀ (o : Oracles) (f : String) (st : FSState) (p : String × String),
      (process_single_file o f st).1 = some p →
      ∃ t, o.transcribeResult = some t ∧
        p.2 = final_text_content t (get_gpt4o_response o t)) := by
  refine ⟨fun t a => rfl, ?_⟩
  intro o f st p h
  obtain ⟨t, ht, hp⟩ := process_fst_eq_some o f st p h
  exact ⟨t, ht, by rw [hp]⟩

/-- Witness for C6: a concrete successful run of the pipeline whose
artifact content is recovered by the theorem. -/
theorem artifact_template_witness :
    ∃ t, goodO.transcribeResult = some t ∧
      ("a.txt", final_text_content "T" "A").2 =
        final_text_content t (get_gpt4o_response goodO t) :=
  artifact_template.2 goodO "a.mp3" ⟨[("a.mp3", 5)], []⟩
    ("a.txt", final_text_content "T" "A") (by decide)

/-- C9 counterexample: the sanitized form of `"Café Résumé (1).mp4"` is
`"Cafe_Resume_1.mp4"`, which contains a period, so the output does not
consist only of ASCII letters, digits and underscores. -/
theorem sanitize_counterexample :
    (sanitize_filename "Café Résumé (1).mp4").data.all
      (fun c => c.isAlphanum || c == '_') = false ∧
    '.' ∈ (sanitize_filename "Café Résumé (1).mp4").data := by
  refine ⟨?_, ?_⟩ <;> decide

/-- C9 amended: `sanitize_filename` is a deterministic total function
(a pure function of its argument), and on `"Café Résumé (1).mp4"` it
yields `"Cafe_Resume_1.mp4"`, whose characters are only ASCII letters,
digits, underscores and periods — in particular no parentheses and no
spaces. -/
theorem sanitize_props :
    (∀ s, sanitize_filename s = sanitize_filename s) ∧
    sanitize_filename "Café Résumé (1).mp4" = "Cafe_Resume_1.mp4" ∧
    (sanitize_filename "Café Résumé (1).mp4").data.all
      (fun c => c.isAlphanum || c == '_' || c == '.') = true ∧
    '(' ∉ (sanitize_filename "Café Résumé (1).mp4").data ∧
    ')' ∉ (sanitize_filename "Café Résumé (1).mp4").data ∧
    ' ' ∉ (sanitize_filename "Café Résumé (1).mp4").data := by
  refine ⟨fun s => rfl, ?_, ?_, ?_, ?_, ?_⟩ <;> decide

/-- C2 counterexample: a file with an extension outside the supported
sets is not excluded from the candidate list — it is selected and handed
to the processing loop. -/
theorem unsupported_extension_counterexample :
    isVideoFile "notes.xyz" = false ∧
    "notes.xyz" ∈ buildCandidates none ["notes.xyz", "a.mp3"] ∧
    (runFiles (fun _ => goodO) (buildCandidates none ["notes.xyz", "a.mp3"])
        ⟨[("notes.xyz", 4), ("a.mp3", 5)], []⟩).trace = ["notes.xyz", "a.mp3"] := by
  refine ⟨?_, ?_, ?_⟩ <;> decide

/-- C2 amended: classification is by file extension, case-insensitively,
but with only one decision: names ending in .mp4/.webm/.mpeg are routed
through audio extraction and every other name is treated as audio-ready;
the candidate list never excludes a file — every directory entry is a
candidate regardless of extension (only the upload widget restricts the
extensions of uploads), and no error is raised in building the list. -/
theorem classification_and_candidates :
    (∀ (downloadedFile : Option String) (filesInDir : List String) (f : String),
      f ∈ filesInDir → f ∈ buildCandidates downloadedFile filesInDir) ∧
    isVideoFile "clip.MP4" = true ∧ isVideoFile "clip.WeBm" = true ∧
    isVideoFile "clip.MPEG" = true ∧ isVideoFile "song.MP3" = false ∧
    isVideoFile "voice.M4A" = false ∧ isVideoFile "notes.txt" = false := by
  refine ⟨?_, by decide, by decide, by decide, by decide, by decide, by decide⟩
  intro d dir f hf
  cases d with
  | none => simp [buildCandidates, List.mem_filter, hf]
  | some g =>
    by_cases hfg : f = g
    · subst hfg; simp [buildCandidates]
    · simp [buildCandidates, List.mem_filter, hf, hfg]

/-- Witness for C2: a concretely staged unsupported file is in the
candidate list by the theorem. -/
theorem classification_and_candidates_witness :
    "data.bin" ∈ (["data.bin", "a.mp3"] : List String) ∧
    "data.bin" ∈ buildCandidates none ["data.bin", "a.mp3"] :=
  ⟨by decide,
    classification_and_candidates.1 none ["data.bin", "a.mp3"] "data.bin" (by decide)⟩

/-- C4 counterexample: with a failed fetch (the download helper returned
`None`) and one staged file that succeeds, the run reports zero failed
items — not the one failed item named after the attempted fetch that the
claim requires — and shows the all-succeeded banner. -/
theorem fetch_failure_counterexample :
    (run_app_outcome (fun _ => goodO) none ⟨[("a.mp3", 5)], []⟩).2.failedFiles = 0 ∧
    ¬ (run_app_outcome (fun _ => goodO) none ⟨[("a.mp3", 5)], []⟩).2.failedFiles = 1 ∧
    (run_app_outcome (fun _ => goodO) none ⟨[("a.mp3", 5)], []⟩).1 =
      BatchOutcome.allSucceeded ∧
    (run_app_outcome (fun _ => goodO) none ⟨[("a.mp3", 5)], []⟩).2.successfulFiles = 1 := by
  refine ⟨?_, ?_, ?_, ?_⟩ <;> decide

/-- C4 amended: when the fetch fails the download helper returns `None`
and nothing is appended for it: the candidate list is exactly the staged
directory listing and the whole batch result is exactly that of a run
with no URL at all, so no failed item is recorded for the fetch and
every already-staged file is still processed. -/
theorem fetch_failure_no_entry :
    ∀ (O : String → Oracles) (st : FSState),
      buildCandidates none (st.incoming.map Prod.fst) = st.incoming.map Prod.fst ∧
      (run_app_outcome O none st).2 = runFiles O (st.incoming.map Prod.fst) st := by
  intro O st
  have hb : buildCandidates none (st.incoming.map Prod.fst) = st.incoming.map Prod.fst := by
    simp [buildCandidates]
  refine ⟨hb, ?_⟩
  simp only [run_app_outcome, hb]
  cases hn : st.incoming.map Prod.fst with
  | nil => simp [runFiles]
  | cons a l =>
    simp only [List.isEmpty_cons, if_false, Bool.false_eq_true]
    split
    · rfl
    · split <;> rfl

/-- C1 counterexample: with a failing analysis API call the pipeline
does not stop — `process_single_file` returns a value, the original is
moved to done (not left in incoming), the item is counted succeeded and
its artifact, embedding the error text, appears in the retrievable
mapping. -/
theorem analysis_failure_counterexample :
    (process_single_file analysisFailO "a.mp3" ⟨[("a.mp3", 5)], []⟩).1 ≠ none ∧
    "a.mp3" ∈ (process_single_file analysisFailO "a.mp3" ⟨[("a.mp3", 5)], []⟩).2.done ∧
    existsIncoming (process_single_file analysisFailO "a.mp3"
      ⟨[("a.mp3", 5)], []⟩).2 "a.mp3" = false ∧
    (runFiles (fun _ => analysisFailO) ["a.mp3"] ⟨[("a.mp3", 5)], []⟩).successfulFiles = 1 ∧
    (runFiles (fun _ => analysisFailO) ["a.mp3"] ⟨[("a.mp3", 5)], []⟩).failedFiles = 0 ∧
    (runFiles (fun _ => analysisFailO) ["a.mp3"] ⟨[("a.mp3", 5)], []⟩).processedFiles =
      [("a.txt", final_text_content "T"
        "Error: Could not get response from AI. Details: boom")] := by
  refine ⟨?_, ?_, ?_, ?_, ?_, ?_⟩ <;> decide

/-- C1 amended: when the Analyze API call fails, the pipeline does not
stop — `get_gpt4o_response` catches the exception and returns an error
string, the combined artifact embedding that error text is produced as
the item's value (so the item is reported succeeded with a retrievable
artifact), and (when the move succeeds) the original file is moved to
done rather than left in incoming. -/
theorem analysis_failure_continues :
    ∀ (o : Oracles) (f : String) (st : FSState) (t : String),
      existsIncoming st f = true →
      o.transcribeResult = some t → o.analyzeResult = none →
      (isVideoFile f = true →
        o.ffmpeg.raised = false ∧ ∃ n, o.ffmpeg.produced = some (n + 1)) →
      (process_single_file o f st).1 =
        some (splitextRoot f ++ ".txt",
          final_text_content t
            ("Error: Could not get response from AI. Details: " ++ o.analyzeErr)) ∧
      (o.moveOk = true → f ∈ (process_single_file o f st).2.done) := by
  intro o f st t he ht ha hext
  cases hv : isVideoFile f with
  | false =>
    rw [process_audio o f st he hv]
    constructor
    · simp [afterExtract, ht, get_gpt4o_response, ha]
    · intro hm
      simp only [afterExtract, ht]
      try dsimp only
      rw [cleanupFiles_done o f f st hm]
      exact List.mem_cons_self _ _
  | true =>
    obtain ⟨hr, n, hp⟩ := hext hv
    have hea := extract_audio_success o.ffmpeg (splitextRoot f ++ ".mp3") st n hr hp
    rw [process_video_extract_ok o f st he hv (by rw [hea]), hea]
    try dsimp only
    constructor
    · simp [afterExtract, ht, get_gpt4o_response, ha]
    · intro hm
      simp only [afterExtract, ht]
      try dsimp only
      rw [cleanupFiles_done o f _ _ hm]
      exact List.mem_cons_self _ _

/-- Witness for C1: the theorem applied to the concrete failing-analysis
oracle. -/
theorem analysis_failure_continues_witness :
    (process_single_file analysisFailO "a.mp3" ⟨[("a.mp3", 5)], []⟩).1 =
      some (splitextRoot "a.mp3" ++ ".txt",
        final_text_content "T"
          ("Error: Could not get response from AI. Details: " ++
            analysisFailO.analyzeErr)) ∧
    (analysisFailO.moveOk = true →
      "a.mp3" ∈ (process_single_file analysisFailO "a.mp3" ⟨[("a.mp3", 5)], []⟩).2.done) :=
  analysis_failure_continues analysisFailO "a.mp3" ⟨[("a.mp3", 5)], []⟩ "T"
    (by decide) rfl rfl (fun hvid => absurd hvid (by decide))

/-- C3 counterexample: ffmpeg reports success but writes an empty file;
the pipeline stops and the original stays in incoming, but the empty
`.mp3` is not removed — an orphaned partial audio file remains. -/
theorem extract_failure_orphan_counterexample :
    (process_single_file emptyExtractO "v.mp4" ⟨[("v.mp4", 9)], []⟩).1 = none ∧
    existsIncoming (process_single_file emptyExtractO "v.mp4"
      ⟨[("v.mp4", 9)], []⟩).2 "v.mp3" = true ∧
    getSize (process_single_file emptyExtractO "v.mp4"
      ⟨[("v.mp4", 9)], []⟩).2 "v.mp3" = some 0 ∧
    existsIncoming (process_single_file emptyExtractO "v.mp4"
      ⟨[("v.mp4", 9)], []⟩).2 "v.mp4" = true := by
  refine ⟨?_, ?_, ?_, ?_⟩ <;> decide

/-- C3 amended: for every video item whose Extract stage fails, the
pipeline for that item stops with a failed result and the original file
is left in incoming (done is unchanged); however, whenever the tool
wrote an output file before the failure (a partial or empty file), that
file is not cleaned up and remains in the incoming area. -/
theorem extract_failure_state :
    ∀ (o : Oracles) (f : String) (st : FSState),
      existsIncoming st f = true → isVideoFile f = true →
      (o.ffmpeg.raised = true ∨ o.ffmpeg.produced = none ∨
        o.ffmpeg.produced = some 0) →
      (process_single_file o f st).1 = none ∧
      existsIncoming (process_single_file o f st).2 f = true ∧
      (process_single_file o f st).2.done = st.done ∧
      ∀ sz, o.ffmpeg.produced = some sz →
        existsIncoming (process_single_file o f st).2
          (splitextRoot f ++ ".mp3") = true := by
  intro o f st he hv hfail
  have hfo : f ≠ splitextRoot f ++ ".mp3" := video_ne_mp3 f hv
  cases hr : o.ffmpeg.raised with
  | true =>
    cases hp : o.ffmpeg.produced with
    | none =>
      have hea := extract_audio_raised_none o.ffmpeg (splitextRoot f ++ ".mp3") st hr hp
      rw [process_video_extract_failed o f st he hv (by rw [hea]), hea]
      try dsimp only
      refine ⟨rfl, ?_, rfl, ?_⟩
      · rw [existsIncoming_removeIncoming_ne st f _ hfo]; exact he
      · intro sz hsz; cases hsz
    | some sz =>
      have hea := extract_audio_raised_some o.ffmpeg (splitextRoot f ++ ".mp3") st sz hr hp
      rw [process_video_extract_failed o f st he hv (by rw [hea]), hea]
      try dsimp only
      refine ⟨rfl, ?_, rfl, ?_⟩
      · have hcons : existsIncoming
            ⟨(splitextRoot f ++ ".mp3", sz) ::
              (removeIncoming st (splitextRoot f ++ ".mp3")).incoming, st.done⟩ f =
            (((splitextRoot f ++ ".mp3") == f) ||
              existsIncoming (removeIncoming st (splitextRoot f ++ ".mp3")) f) := rfl
        rw [hcons, existsIncoming_removeIncoming_ne st f _ hfo, he, Bool.or_true]
      · intro sz' hsz'
        have hhead : ((splitextRoot f ++ ".mp3") == (splitextRoot f ++ ".mp3")) = true :=
          beq_self_eq_true _
        simp [existsIncoming, List.any_cons, hhead]
  | false =>
    cases hp : o.ffmpeg.produced with
    | none =>
      have hea := extract_audio_no_output o.ffmpeg (splitextRoot f ++ ".mp3") st hr hp
      rw [process_video_extract_failed o f st he hv (by rw [hea]), hea]
      try dsimp only
      refine ⟨rfl, ?_, rfl, ?_⟩
      · rw [existsIncoming_removeIncoming_ne st f _ hfo]; exact he
      · intro sz hsz; cases hsz
    | some sz =>
      have hsz0 : sz = 0 := by
        rcases hfail with h1 | h2 | h3
        · rw [hr] at h1; cases h1
        · rw [hp] at h2; cases h2
        · rw [hp] at h3; exact Option.some_inj.mp h3
      subst hsz0
      have hea := extract_audio_empty_output o.ffmpeg (splitextRoot f ++ ".mp3") st hr hp
      rw [process_video_extract_failed o f st he hv (by rw [hea]), hea]
      try dsimp only
      refine ⟨rfl, ?_, rfl, ?_⟩
      · have hcons : existsIncoming
            ⟨(splitextRoot f ++ ".mp3", 0) ::
              (removeIncoming st (splitextRoot f ++ ".mp3")).incoming, st.done⟩ f =
            (((splitextRoot f ++ ".mp3") == f) ||
              existsIncoming (removeIncoming st (splitextRoot f ++ ".mp3")) f) := rfl
        rw [hcons, existsIncoming_removeIncoming_ne st f _ hfo, he, Bool.or_true]
      · intro sz' hsz'
        have hhead : ((splitextRoot f ++ ".mp3") == (splitextRoot f ++ ".mp3")) = true :=
          beq_self_eq_true _
        simp [existsIncoming, List.any_cons, hhead]

/-- Witness for C3: the theorem applied to the concrete empty-output
oracle. -/
theorem extract_failure_state_witness :
    (process_single_file emptyExtractO "clip.mp4" ⟨[("clip.mp4", 9)], []⟩).1 = none ∧
    existsIncoming (process_single_file emptyExtractO "clip.mp4"
      ⟨[("clip.mp4", 9)], []⟩).2 "clip.mp4" = true ∧
    (process_single_file emptyExtractO "clip.mp4" ⟨[("clip.mp4", 9)], []⟩).2.done = [] ∧
    (∀ sz, emptyExtractO.ffmpeg.produced = some sz →
      existsIncoming (process_single_file emptyExtractO "clip.mp4"
        ⟨[("clip.mp4", 9)], []⟩).2 (splitextRoot "clip.mp4" ++ ".mp3") = true) :=
  extract_failure_state emptyExtractO "clip.mp4" ⟨[("clip.mp4", 9)], []⟩
    (by decide) (by decide) (by decide)

/-- C10: for every video item whose extraction succeeds but whose
Transcribe stage then fails, the pipeline reports failure, the extracted
`.mp3` sibling is not deleted and remains in incoming alongside the
original, and the extracted file is a candidate of the next run. -/
theorem transcribe_failure_keeps_audio :
    ∀ (o : Oracles) (f : String) (st : FSState) (n : Nat),
      existsIncoming st f = true → isVideoFile f = true →
      o.ffmpeg.raised = false → o.ffmpeg.produced = some (n + 1) →
      o.transcribeResult = none →
      (process_single_file o f st).1 = none ∧
      existsIncoming (process_single_file o f st).2 f = true ∧
      existsIncoming (process_single_file o f st).2 (splitextRoot f ++ ".mp3") = true ∧
      (splitextRoot f ++ ".mp3") ∈
        buildCandidates none ((process_single_file o f st).2.incoming.map Prod.fst) := by
  intro o f st n he hv hr hp ht
  have hfo : f ≠ splitextRoot f ++ ".mp3" := video_ne_mp3 f hv
  have hea := extract_audio_success o.ffmpeg (splitextRoot f ++ ".mp3") st n hr hp
  rw [process_video_extract_ok o f st he hv (by rw [hea]), hea]
  simp only [afterExtract, ht]
  try dsimp only
  refine ⟨by simp, ?_, ?_, ?_⟩
  · have hcons : existsIncoming
        ⟨(splitextRoot f ++ ".mp3", n + 1) ::
          (removeIncoming st (splitextRoot f ++ ".mp3")).incoming, st.done⟩ f =
        (((splitextRoot f ++ ".mp3") == f) ||
          existsIncoming (removeIncoming st (splitextRoot f ++ ".mp3")) f) := rfl
    rw [hcons, existsIncoming_removeIncoming_ne st f _ hfo, he, Bool.or_true]
  · have hhead : ((splitextRoot f ++ ".mp3") == (splitextRoot f ++ ".mp3")) = true :=
      beq_self_eq_true _
    simp [existsIncoming, List.any_cons, hhead]
  · rw [buildCandidates_none]
    simp

/-- Witness for C10: the theorem applied to the concrete
extraction-succeeds/transcription-fails oracle. -/
theorem transcribe_failure_keeps_audio_witness :
    (process_single_file transcribeFailO "v.mp4" ⟨[("v.mp4", 9)], []⟩).1 = none ∧
    existsIncoming (process_single_file transcribeFailO "v.mp4"
      ⟨[("v.mp4", 9)], []⟩).2 "v.mp4" = true ∧
    existsIncoming (process_single_file transcribeFailO "v.mp4"
      ⟨[("v.mp4", 9)], []⟩).2 (splitextRoot "v.mp4" ++ ".mp3") = true ∧
    (splitextRoot "v.mp4" ++ ".mp3") ∈
      buildCandidates none
        ((process_single_file transcribeFailO "v.mp4"
          ⟨[("v.mp4", 9)], []⟩).2.incoming.map Prod.fst) :=
  transcribe_failure_keeps_audio transcribeFailO "v.mp4" ⟨[("v.mp4", 9)], []⟩ 1
    (by decide) (by decide) rfl rfl rfl

/-- C7: for every item that completes the pipeline successfully,
Finalize moves the original from incoming to done and deletes the
extracted-audio working file if one was created; and the cleanup flags
(move/delete failing or not) never change the returned result, so a
cleanup error leaves the item succeeded. -/
theorem finalize_moves_and_cleanup :
    ∀ (o : Oracles) (f : String) (st : FSState),
      (∀ b₁ b₂, (process_single_file { o with moveOk := b₁, removeOk := b₂ } f st).1 =
        (process_single_file o f st).1) ∧
      (o.moveOk = true → o.removeOk = true →
        ∀ p, (process_single_file o f st).1 = some p →
          f ∈ (process_single_file o f st).2.done ∧
          existsIncoming (process_single_file o f st).2 f = false ∧
          (isVideoFile f = true →
            existsIncoming (process_single_file o f st).2
              (splitextRoot f ++ ".mp3") = false)) := by
  intro o f st
  refine ⟨fun b₁ b₂ => process_fst_flags o b₁ b₂ f st, ?_⟩
  intro hm hrm p hp
  have he : existsIncoming st f = true := process_fst_some_exists o f st p hp
  cases hv : isVideoFile f with
  | false =>
    rw [process_audio o f st he hv] at hp ⊢
    cases ht : o.transcribeResult with
    | none => simp [afterExtract, ht] at hp
    | some t =>
      simp only [afterExtract, ht]
      try dsimp only
      obtain ⟨hd, hgone⟩ := cleanup_after_success_audio o f st hm
      refine ⟨?_, hgone, ?_⟩
      · rw [hd]; exact List.mem_cons_self _ _
      · intro hvt; exact Bool.noConfusion hvt
  | true =>
    cases hres : (extract_audio o.ffmpeg (splitextRoot f ++ ".mp3") st).1 with
    | true =>
      rw [process_video_extract_failed o f st he hv hres] at hp
      simp at hp
    | false =>
      have hfo : f ≠ splitextRoot f ++ ".mp3" := video_ne_mp3 f hv
      obtain ⟨hr, n, hpn, hea⟩ :=
        extract_audio_false_inv o.ffmpeg (splitextRoot f ++ ".mp3") st hres
      rw [process_video_extract_ok o f st he hv hres, hea] at hp ⊢
      cases ht : o.transcribeResult with
      | none => simp [afterExtract, ht] at hp
      | some t =>
        simp only [afterExtract, ht]
        try dsimp only
        have hbne : ((splitextRoot f ++ ".mp3") != f) = true :=
          bne_iff_ne.mpr (Ne.symm hfo)
        obtain ⟨hd, hgf, hgo⟩ := cleanup_after_success_video o f
          (splitextRoot f ++ ".mp3")
          ⟨(splitextRoot f ++ ".mp3", n + 1) ::
            (removeIncoming st (splitextRoot f ++ ".mp3")).incoming, st.done⟩
          hm hrm hfo
          (by simp [existsIncoming, removeIncoming, List.filter_cons, hbne,
            List.any_cons])
        refine ⟨?_, hgf, fun _ => hgo⟩
        rw [hd]
        exact List.mem_cons_self _ _

/-- Witness for C7: the theorem applied to a concrete successful video
run — the original ends in done, and neither it nor the extracted audio
remains in incoming. -/
theorem finalize_moves_and_cleanup_witness :
    "v.mp4" ∈ (process_single_file goodO "v.mp4" ⟨[("v.mp4", 9)], []⟩).2.done ∧
    existsIncoming (process_single_file goodO "v.mp4"
      ⟨[("v.mp4", 9)], []⟩).2 "v.mp4" = false ∧
    existsIncoming (process_single_file goodO "v.mp4"
      ⟨[("v.mp4", 9)], []⟩).2 (splitextRoot "v.mp4" ++ ".mp3") = false :=
  let h := (finalize_moves_and_cleanup goodO "v.mp4" ⟨[("v.mp4", 9)], []⟩).2
    rfl rfl ("v.txt", final_text_content "T" "A") (by decide)
  ⟨h.1, h.2.1, h.2.2 (by decide)⟩

/-- C8: the candidate list of a run contains no duplicate identities —
a freshly fetched file and a pre-existing staged file with the same name
become one entry — and each candidate is handed to the stage pipeline
exactly once per run. -/
theorem candidates_nodup_processed_once :
    ∀ (O : String → Oracles) (st : FSState) (downloadedFile : Option String)
      (filesInDir : List String), filesInDir.Nodup →
      (buildCandidates downloadedFile filesInDir).Nodup ∧
      ∀ f ∈ buildCandidates downloadedFile filesInDir,
        (runFiles O (buildCandidates downloadedFile filesInDir) st).trace.count f = 1 := by
  intro O st d dir hnd
  have hn : (buildCandidates d dir).Nodup := by
    cases d with
    | none => simpa [buildCandidates_none] using hnd
    | some g =>
      have hfilter : (dir.filter (fun f => ! [g].contains f)).Nodup :=
        hnd.filter _
      have hg : g ∉ dir.filter (fun f => ! [g].contains f) := by
        intro hmem
        rcases List.mem_filter.mp hmem with ⟨-, hgp⟩
        simp at hgp
      show (g :: dir.filter (fun f => ! [g].contains f)).Nodup
      exact List.nodup_cons.mpr ⟨hg, hfilter⟩
  refine ⟨hn, ?_⟩
  intro f hf
  rw [runFiles_trace]
  exact List.count_eq_one_of_mem hn hf

/-- Witness for C8: a concrete run in which the downloaded file carries
the same name as a staged file, giving one deduplicated candidate list
and one processing event for that name. -/
theorem candidates_nodup_processed_once_witness :
    (["a.mp3", "b.wav"] : List String).Nodup ∧
    (buildCandidates (some "a.mp3") ["a.mp3", "b.wav"]).Nodup ∧
    (runFiles (fun _ => goodO) (buildCandidates (some "a.mp3") ["a.mp3", "b.wav"])
      ⟨[("a.mp3", 5), ("b.wav", 7)], []⟩).trace.count "a.mp3" = 1 :=
  let h := candidates_nodup_processed_once (fun _ => goodO)
    ⟨[("a.mp3", 5), ("b.wav", 7)], []⟩ (some "a.mp3") ["a.mp3", "b.wav"] (by decide)
  ⟨by decide, h.1, h.2 "a.mp3" (by decide)⟩

/-- C5 counterexample: after a fully successful run, re-running with no
new input reports the please-upload warning outcome (zero items
processed), not the claimed all-succeeded outcome. -/
theorem rerun_counterexample :
    (run_app_outcome (fun _ => goodO) none ⟨[("a.mp3", 3)], []⟩).1 =
      BatchOutcome.allSucceeded ∧
    (run_app_outcome (fun _ => goodO) none
      (run_app_outcome (fun _ => goodO) none ⟨[("a.mp3", 3)], []⟩).2.finalState).1 =
      BatchOutcome.noFiles ∧
    (run_app_outcome (fun _ => goodO) none
      (run_app_outcome (fun _ => goodO) none ⟨[("a.mp3", 3)], []⟩).2.finalState).1 ≠
      BatchOutcome.allSucceeded ∧
    (run_app_outcome (fun _ => goodO) none
      (run_app_outcome (fun _ => goodO) none ⟨[("a.mp3", 3)], []⟩).2.finalState).2.trace
      = [] := by
  refine ⟨?_, ?_, ?_, ?_⟩ <;> decide

/-- C5 amended: finalize is idempotent across runs in the sense that a
fully successful run (transcription, analysis and cleanup all
succeeding, no name collisions between a video and its extracted
sibling) drains the incoming directory, and an immediate re-run with no
new input processes zero new items — finalized files were moved to done
and are no longer candidates — reporting the no-input warning outcome
rather than the all-succeeded banner. -/
theorem rerun_after_success :
    ∀ (O : String → Oracles) (st : FSState) (files : List String),
      st.incoming.map Prod.fst = files → files.Nodup →
      (∀ f ∈ files, GoodOracle (O f)) →
      (∀ f ∈ files, isVideoFile f = true → (splitextRoot f ++ ".mp3") ∉ files) →
      (files ≠ [] → (run_app_outcome O none st).1 = BatchOutcome.allSucceeded) ∧
      (runFiles O files st).finalState.incoming = [] ∧
      (run_app_outcome O none (runFiles O files st).finalState).1 =
        BatchOutcome.noFiles ∧
      (run_app_outcome O none (runFiles O files st).finalState).2.trace = [] ∧
      (run_app_outcome O none (runFiles O files st).finalState).2.successfulFiles = 0 := by
  intro O st files hnames hnd hgood hnocol
  obtain ⟨hinc, hfail, hsucc⟩ := runFiles_success_empties O files st hnames hnd hgood hnocol
  have hrerun : run_app_outcome O none (runFiles O files st).finalState =
      (BatchOutcome.noFiles, ⟨[], 0, 0, [], (runFiles O files st).finalState⟩) := by
    simp [run_app_outcome, hinc, buildCandidates_none]
  refine ⟨?_, hinc, by rw [hrerun], by rw [hrerun], by rw [hrerun]⟩
  intro hne
  have hie : files.isEmpty = false := by
    cases hfe : files with
    | nil => exact absurd hfe hne
    | cons a l => rfl
  simp [run_app_outcome, hnames, buildCandidates_none, hie, hfail]

/-- Witness for C5: the theorem applied to a concrete one-item run with
the all-good oracle. -/
theorem rerun_after_success_witness :
    ((["a.mp3"] : List String) ≠ [] →
      (run_app_outcome (fun _ => goodO) none ⟨[("a.mp3", 3)], []⟩).1 =
        BatchOutcome.allSucceeded) ∧
    (runFiles (fun _ => goodO) ["a.mp3"] ⟨[("a.mp3", 3)], []⟩).finalState.incoming = [] ∧
    (run_app_outcome (fun _ => goodO) none
      (runFiles (fun _ => goodO) ["a.mp3"] ⟨[("a.mp3", 3)], []⟩).finalState).1 =
      BatchOutcome.noFiles ∧
    (run_app_outcome (fun _ => goodO) none
      (runFiles (fun _ => goodO) ["a.mp3"] ⟨[("a.mp3", 3)], []⟩).finalState).2.trace = [] ∧
    (run_app_outcome (fun _ => goodO) none
      (runFiles (fun _ => goodO) ["a.mp3"] ⟨[("a.mp3", 3)], []⟩).finalState).2.successfulFiles
      = 0 :=
  rerun_after_success (fun _ => goodO) ⟨[("a.mp3", 3)], []⟩ ["a.mp3"] rfl (by decide)
    (fun _ _ => ⟨⟨"T", rfl⟩, rfl, rfl, rfl, ⟨0, rfl⟩⟩)
    (fun f hf hvf => by
      rcases List.mem_singleton.mp hf with rfl
      exact absurd hvf (by decide))

end FbVidToTxt
